import Mathlib

/-!
# Verification of the Auto-Dashboard column-mapping and analytics pipeline

This file gives a shallow embedding of the Auto-Dashboard repository
(React/TypeScript business-analytics dashboard) and proves properties of it.

Two kinds of definitions appear:
* definitions translated directly from the TypeScript sources under
  `client/src` (the presentation components `toNumber`, `getMappedValues`,
  the customer-revenue aggregation, `generateTrendData`, `isAccessible`);
* definitions of the core mapping/normalization/aggregation engine
  (`column-mapper.ts`, `data-processor.ts`), which is not among the source
  files available here; those are modelled from the specification and each
  carries a doc comment starting with "Modelled from the spec:".

JavaScript numbers are modelled as `JSNum`: a rational for finite values plus
explicit `nan`, `posInf`, `negInf` constructors.  This captures NaN/Infinity
propagation exactly; it idealizes only the precision of finite values
(rationals instead of 64-bit floats) and overflow-to-Infinity, neither of
which the proved statements depend on.
-/

namespace AutoDashboard

/-- A JavaScript number: a finite rational, NaN, or a signed infinity. -/
inductive JSNum where
  | finite : ℚ → JSNum
  | nan : JSNum
  | posInf : JSNum
  | negInf : JSNum
deriving DecidableEq, Repr

/-- A JavaScript cell value as it occurs in parsed row data
(string | number | boolean | null | undefined). -/
inductive JSValue where
  | num : JSNum → JSValue
  | str : String → JSValue
  | boolean : Bool → JSValue
  | null : JSValue
  | undefined : JSValue
deriving DecidableEq, Repr

/-- `true` for the finite constructor only. -/
def JSNum.isFiniteNum : JSNum → Bool
  | .finite _ => true
  | _ => false

/-- JavaScript truthiness of a number (`0`, `-0` and `NaN` are falsy). -/
def jsTruthyNum : JSNum → Bool
  | .finite q => if q = 0 then false else true
  | .nan => false
  | _ => true

/-- JavaScript truthiness of a value. -/
def jsTruthy : JSValue → Bool
  | .num n => jsTruthyNum n
  | .str s => if s = "" then false else true
  | .boolean b => b
  | .null => false
  | .undefined => false

/-- JavaScript `+` on numbers (NaN absorbs; opposite infinities give NaN). -/
def jsAdd : JSNum → JSNum → JSNum
  | .finite a, .finite b => .finite (a + b)
  | .nan, _ => .nan
  | _, .nan => .nan
  | .posInf, .negInf => .nan
  | .negInf, .posInf => .nan
  | .posInf, _ => .posInf
  | _, .posInf => .posInf
  | .negInf, _ => .negInf
  | _, .negInf => .negInf

/-- `'0' ≤ c ≤ '9'`. -/
def isDigitChar (c : Char) : Bool := '0' ≤ c && c ≤ '9'

/-- Numeric value of a decimal digit character. -/
def digitVal (c : Char) : Nat := c.toNat - '0'.toNat

/-- Value of a list of decimal digit characters read most-significant first. -/
def digitsVal (cs : List Char) : Nat := cs.foldl (fun acc c => acc * 10 + digitVal c) 0

/-- The characters removed by the components' regex `/[$,\s%]/g`
(`\s` modelled by the ASCII whitespace characters). -/
def jsStripChars : List Char := ['$', ',', '%', ' ', '\t', '\n', '\r', '\x0b', '\x0c']

/-- `value.replace(/[$,\s%]/g, '')` from the dashboard components. -/
def cleanNumericString (s : String) : List Char :=
  s.data.filter (fun c => !(jsStripChars.contains c))

/-- The character sequence of the literal `Infinity`. -/
def infinityLit : List Char := ['I', 'n', 'f', 'i', 'n', 'i', 't', 'y']

/-- Longest leading `digits [. digits]` of a character list, as a rational,
with the unconsumed remainder; `none` when no digit is present before the
remainder starts.  Mirrors the mantissa part of JavaScript `parseFloat`. -/
def parseMantissa (cs : List Char) : Option (ℚ × List Char) :=
  let p1 := cs.span isDigitChar
  match p1.2 with
  | '.' :: rest2 =>
      let p2 := rest2.span isDigitChar
      if p1.1.isEmpty && p2.1.isEmpty then none
      else some ((digitsVal (p1.1 ++ p2.1) : ℚ) / (10 : ℚ) ^ p2.1.length, p2.2)
  | _ => if p1.1.isEmpty then none else some ((digitsVal p1.1 : ℚ), p1.2)

/-- Applies an exponent suffix after `e`/`E` has been consumed: an optional
sign and digits; if no digit follows, the suffix is ignored (as `parseFloat`
does for `"1e"`). -/
def applyExpTail (q : ℚ) (rest : List Char) : ℚ :=
  let sp : ℤ × List Char :=
    match rest with
    | '+' :: r => (1, r)
    | '-' :: r => (-1, r)
    | r => (1, r)
  let ds := (sp.2.span isDigitChar).1
  if ds.isEmpty then q else q * (10 : ℚ) ^ (sp.1 * (digitsVal ds : ℤ))

/-- Applies an optional `e`/`E` exponent suffix to a parsed mantissa. -/
def applyExponent (q : ℚ) (cs : List Char) : ℚ :=
  match cs with
  | 'e' :: rest => applyExpTail q rest
  | 'E' :: rest => applyExpTail q rest
  | _ => q

/-- JavaScript `parseFloat` on an already-whitespace-free character list:
optional sign, then the literal `Infinity` or the longest valid numeric
mantissa with optional exponent; NaN when no numeric lead exists. -/
def parseFloatChars (cs : List Char) : JSNum :=
  let sp : Bool × List Char :=
    match cs with
    | '-' :: r => (true, r)
    | '+' :: r => (false, r)
    | r => (false, r)
  if infinityLit.isPrefixOf sp.2 then (if sp.1 then .negInf else .posInf)
  else
    match parseMantissa sp.2 with
    | none => .nan
    | some qr => .finite ((if sp.1 then (-1 : ℚ) else 1) * applyExponent qr.1 qr.2)

/-- Embeds `toNumber` from `customer-analysis.tsx` (lines 41-49), duplicated
verbatim in `product-analysis` and `operational-analysis`:
numbers are returned unchanged, strings are stripped of `$`, `,`, whitespace
and `%` then fed to `parseFloat` with a NaN result replaced by `0`, and every
other value yields `0`. -/
def toNumber : JSValue → JSNum
  | .num n => n
  | .str s =>
      match parseFloatChars (cleanNumericString s) with
      | .nan => .finite 0
      | n => n
  | _ => .finite 0

/-- One mapping-result entry per raw column (`ColumnMapping` of the data
model). -/
structure ColumnMapping where
  sourceColumn : String
  businessField : Option String
  mapped : Bool
  confidence : ℚ
deriving DecidableEq, Repr

/-- A parsed data row: an ordered mapping from raw column name to raw cell
value. -/
abbrev Row := List (String × JSValue)

/-- `row[name]` — JavaScript property access on a row object, `undefined`
when the column is absent. -/
def rowGet (row : Row) (name : String) : JSValue :=
  match row.find? (fun p => p.1 == name) with
  | some p => p.2
  | none => .undefined

/-- The uploaded dataset after parsing and column mapping
(`ProcessedDataset` of the data model). -/
structure ProcessedDataset where
  fileName : String
  rowCount : Nat
  data : List Row
  mappings : List ColumnMapping
deriving DecidableEq, Repr

/-- Embeds `getMappedValues` from `customer-analysis.tsx` (lines 35-39),
duplicated in the other analysis components: the values of the first mapped
column whose business field equals the given name, with `null`, `undefined`
and `''` cells filtered out. -/
def getMappedValues (pd : ProcessedDataset) (businessFieldName : String) : List JSValue :=
  match pd.mappings.find? (fun m => m.businessField == some businessFieldName && m.mapped) with
  | none => []
  | some m =>
      (pd.data.map (fun row => rowGet row m.sourceColumn)).filter
        (fun v => !(v == JSValue.null) && !(v == JSValue.undefined) && !(v == JSValue.str ""))

/-- Decimal key string for a rational; integers render as JavaScript does,
non-integers use a `num/den` form (an approximation of JavaScript's decimal
rendering, irrelevant to the proved statements). -/
def ratKeyString (q : ℚ) : String :=
  if q.den = 1 then toString q.num else toString q.num ++ "/" ++ toString q.den

/-- String coercion of a value used as a JavaScript object key. -/
def jsKeyString : JSValue → String
  | .str s => s
  | .num (.finite q) => ratKeyString q
  | .num .nan => "NaN"
  | .num .posInf => "Infinity"
  | .num .negInf => "-Infinity"
  | .boolean true => "true"
  | .boolean false => "false"
  | .null => "null"
  | .undefined => "undefined"

/-- Lookup in an insertion-ordered association list. -/
def alistGetNum (l : List (String × JSNum)) (k : String) : Option JSNum :=
  (l.find? (fun p => p.1 == k)).map (fun p => p.2)

/-- Update in an insertion-ordered association list (JavaScript object
assignment: existing keys keep their position, new keys append). -/
def alistSet (l : List (String × JSNum)) (k : String) (v : JSNum) : List (String × JSNum) :=
  if l.any (fun p => p.1 == k) then
    l.map (fun p => if p.1 == k then (k, v) else p)
  else l ++ [(k, v)]

/-- Embeds the customer-revenue aggregation of `CustomerAnalysis`
(`customer-analysis.tsx` lines 52-60).  `rnd k` stands for the value returned
by the k-th call of `Math.random()` (a rational in `[0,1)`); the stream is
consumed exactly where the source calls `Math.random()`, namely whenever
`toNumber(revenues[index])` is falsy. -/
def customerRevenues (rnd : Nat → ℚ) (pd : ProcessedDataset) : List (String × JSNum) :=
  let customers := getMappedValues pd "Customer ID" ++ getMappedValues pd "Customer Email"
  let revenues := getMappedValues pd "Revenue" ++ getMappedValues pd "Total Amount"
  let step := fun (acc : List (String × JSNum) × Nat) (idx : Nat) =>
    let cv := customers.getD idx JSValue.undefined
    let customerId :=
      if jsTruthy cv then jsKeyString cv else "Customer " ++ toString (idx + 1)
    let tn := toNumber (revenues.getD idx JSValue.undefined)
    let rv : JSNum × Nat :=
      if jsTruthyNum tn then (tn, acc.2)
      else (.finite (rnd acc.2 * 500 + 50), acc.2 + 1)
    let prev0 := (alistGetNum acc.1 customerId).getD (.finite 0)
    let prev := if jsTruthyNum prev0 then prev0 else JSNum.finite 0
    (alistSet acc.1 customerId (jsAdd prev rv.1), rv.2)
  ((List.range pd.data.length).foldl step ([], 0)).1

/-- The four time buckets of the trends view. -/
inductive TimePeriod where
  | daily
  | weekly
  | monthly
  | quarterly
deriving DecidableEq, Repr

/-- One point of the fabricated trend series. -/
structure TrendPoint where
  period : String
  revenue : ℤ
  transactions : ℤ
  index : Nat
deriving DecidableEq, Repr

/-- JavaScript `Math.round`: half-up, i.e. `⌊q + 1/2⌋`. -/
def jsRound (q : ℚ) : ℤ := Int.floor (q + 1/2)

/-- Embeds `generateTrendData` from `TrendsAnalysis` (lines 536-554 of the
trends/navigation source file).  `rnd i` is the `Math.random()` value drawn
for element `i` (the source draws exactly one per element, in order).  The
function reads only `metrics.totalRevenue` and `metrics.totalTransactions`
and never consults the column mappings. -/
def generateTrendData (rnd : Nat → ℚ) (totalRevenue totalTransactions : ℚ)
    (period : TimePeriod) : List TrendPoint :=
  let dataPoints : Nat :=
    match period with
    | .daily => 30
    | .weekly => 12
    | .monthly => 12
    | .quarterly => 4
  let baseRevenue := totalRevenue / (dataPoints : ℚ)
  (List.range dataPoints).map (fun i =>
    let growth : ℚ := 1 + (rnd i - 0.4) * 0.3
    let trend : ℚ := 1 + (i : ℚ) * 0.02
    { period :=
        match period with
        | .daily => "Day " ++ toString (i + 1)
        | .weekly => "Week " ++ toString (i + 1)
        | .monthly => "Month " ++ toString (i + 1)
        | .quarterly => "Q" ++ toString (i + 1)
      revenue := jsRound (baseRevenue * growth * trend)
      transactions := jsRound ((totalTransactions / (dataPoints : ℚ)) * growth * trend)
      index := i })

/-- The dashboard's navigation sections. -/
inductive DashboardSection where
  | upload
  | mapping
  | summary
  | trends
  | products
  | customers
  | financial
  | operational
  | marketing
deriving DecidableEq, Repr

/-- Embeds `isAccessible` from the navigation component (lines 838-842 of the
navigation source file): upload is always accessible, mapping needs processed
data, every other section needs processed data with at least 5 mapped
columns. -/
def isAccessible (processedData : Option ProcessedDataset) (sec : DashboardSection) : Bool :=
  match sec with
  | .upload => true
  | .mapping => processedData.isSome
  | _ =>
      match processedData with
      | none => false
      | some d => decide (5 ≤ (d.mappings.filter (fun m => m.mapped)).length)

/-- The canonical semantic types of the field catalog. -/
inductive ExpectedType where
  | currency
  | number
  | percentage
  | date
  | identifier
  | text
  | categorical
deriving DecidableEq, Repr

/-- Per-cell normalization failure. -/
structure NormalizationError where
  reason : String
  rawValue : String
  expectedType : ExpectedType
deriving DecidableEq, Repr

/-- A normalized canonical value. -/
inductive CanonValue where
  | num : ℚ → CanonValue
  | date : ℤ → Nat → Nat → CanonValue
  | str : String → CanonValue
deriving DecidableEq, Repr

/-- Strict decimal parse of `digits [. digits]` (at least one digit, the whole
input consumed). -/
def parseDecimalDigits (cs : List Char) : Option ℚ :=
  let p1 := cs.span isDigitChar
  match p1.2 with
  | [] => if p1.1.isEmpty then none else some (digitsVal p1.1 : ℚ)
  | '.' :: rest =>
      let p2 := rest.span isDigitChar
      if p2.2.isEmpty && !(p1.1.isEmpty && p2.1.isEmpty) then
        some ((digitsVal (p1.1 ++ p2.1) : ℚ) / (10 : ℚ) ^ p2.1.length)
      else none
  | _ => none

/-- Strict decimal parse with an optional leading sign. -/
def parseSignedDecimal (cs : List Char) : Option ℚ :=
  match cs with
  | '-' :: r => (parseDecimalDigits r).map (fun q => -q)
  | '+' :: r => parseDecimalDigits r
  | r => parseDecimalDigits r

/-- Characters stripped before parsing a currency amount: currency symbols,
thousands separators and spaces. -/
def currencyStripChars : List Char := ['$', '€', '£', '¥', ',', ' ']

/-- Modelled from the spec: §4.4 currency rule of the Value Normalizer
(`data-processor.ts`, not among the available sources) — strip currency
symbols and thousands separators, parse a decimal, negative via a leading
`-` or a parenthesized form. -/
def parseCurrency (s : String) : Option ℚ :=
  let cs := s.data.filter (fun c => !(currencyStripChars.contains c))
  if cs.head? = some '(' && cs.getLast? = some ')' then
    (parseSignedDecimal (cs.drop 1).dropLast).map (fun q => -q)
  else parseSignedDecimal cs

/-- Modelled from the spec: §4.4 percentage rule of the Value Normalizer —
strip `%`, parse a decimal, represent as a fraction (`"12%" → 0.12`). -/
def parsePercentage (s : String) : Option ℚ :=
  let cs := s.data.filter (fun c => !(c = '%' || c = ' '))
  (parseSignedDecimal cs).map (fun q => q / 100)

/-- Modelled from the spec: §4.4 number rule of the Value Normalizer —
numeric parse with thousands-separator tolerance. -/
def parseNumber (s : String) : Option ℚ :=
  parseSignedDecimal (s.data.filter (fun c => !(c = ',' || c = ' ')))

/-- Gregorian leap-year test. -/
def isLeapYear (y : ℤ) : Bool := (y % 4 = 0 && y % 100 ≠ 0) || y % 400 = 0

/-- Days in a month of a given year. -/
def daysInMonth (y : ℤ) (m : Nat) : Nat :=
  if m = 2 then (if isLeapYear y then 29 else 28)
  else if m = 4 || m = 6 || m = 9 || m = 11 then 30
  else 31

/-- Validity of a calendar date. -/
def validDate (y : ℤ) (m d : Nat) : Bool :=
  1 ≤ m && m ≤ 12 && 1 ≤ d && d ≤ daysInMonth y m

/-- All-digits parse of a field of a date string. -/
def parseNatDigits (cs : List Char) : Option Nat :=
  if !cs.isEmpty && cs.all isDigitChar then some (digitsVal cs) else none

/-- Civil date from a count of days since 1970-01-01 (integer-arithmetic
civil-calendar conversion). -/
def civilFromDays (z0 : ℤ) : ℤ × Nat × Nat :=
  let z := z0 + 719468
  let era := (if 0 ≤ z then z else z - 146096) / 146097
  let doe := (z - era * 146097).toNat
  let yoe := (doe - doe / 1460 + doe / 36524 - doe / 146096) / 365
  let y : ℤ := (yoe : ℤ) + era * 400
  let doy := doe - (365 * yoe + yoe / 4 - yoe / 100)
  let mp := (5 * doy + 2) / 153
  let d := doy - (153 * mp + 2) / 5 + 1
  let m := if mp < 10 then mp + 3 else mp - 9
  ((if m ≤ 2 then y + 1 else y), m, d)

/-- Spreadsheet serial date (days since 1899-12-30) to a civil date. -/
def dateFromSerial (serial : Nat) : ℤ × Nat × Nat :=
  civilFromDays ((serial : ℤ) - 25569)

/-- Modelled from the spec: §4.4 date rule of the Value Normalizer — attempt
an ordered sequence of formats (ISO `YYYY-MM-DD`, `MM/DD/YYYY`, `DD-MM-YYYY`,
spreadsheet numeric serials); the first successful parse wins, and candidate
dates are validated against the civil calendar (leap days included). -/
def parseDateChars (cs : List Char) : Option (ℤ × Nat × Nat) :=
  match cs.splitOn '-' with
  | [a, b, c] =>
      (do
        let x ← parseNatDigits a
        let y ← parseNatDigits b
        let z ← parseNatDigits c
        if a.length = 4 then
          if validDate (x : ℤ) y z then some ((x : ℤ), y, z) else none
        else
          if validDate (z : ℤ) y x then some ((z : ℤ), y, x) else none)
  | _ =>
      match cs.splitOn '/' with
      | [a, b, c] =>
          (do
            let m ← parseNatDigits a
            let d ← parseNatDigits b
            let y ← parseNatDigits c
            if validDate (y : ℤ) m d then some ((y : ℤ), m, d) else none)
      | _ =>
          match parseNatDigits cs with
          | some serial =>
              if 20000 ≤ serial && serial ≤ 60000 then some (dateFromSerial serial) else none
          | none => none

/-- Modelled from the spec: §4.4 Value Normalizer dispatch — the per-type
parse whose failure constitutes unparseable input.  `identifier`, `text` and
`categorical` values pass through as strings. -/
def parseForType (raw : String) (t : ExpectedType) : Option CanonValue :=
  match t with
  | .currency => (parseCurrency raw).map CanonValue.num
  | .percentage => (parsePercentage raw).map CanonValue.num
  | .number => (parseNumber raw).map CanonValue.num
  | .date => (parseDateChars raw.data).map (fun ymd => CanonValue.date ymd.1 ymd.2.1 ymd.2.2)
  | .identifier => some (CanonValue.str raw)
  | .text => some (CanonValue.str raw)
  | .categorical => some (CanonValue.str raw)

/-- Modelled from the spec: §4.4 `normalize(rawValue, expectedType)` of the
Value Normalizer (`data-processor.ts`, not among the available sources) —
returns the canonical value, or fails with
`NormalizationError{reason: "unparseable", rawValue, expectedType}`. -/
def normalize (raw : String) (t : ExpectedType) : Except NormalizationError CanonValue :=
  match parseForType raw t with
  | some v => .ok v
  | none => .error { reason := "unparseable", rawValue := raw, expectedType := t }

instance {ε α : Type} [DecidableEq ε] [DecidableEq α] : DecidableEq (Except ε α) := fun a b =>
  match a, b with
  | .ok x, .ok y => if h : x = y then .isTrue (by rw [h]) else .isFalse (by simp [h])
  | .error x, .error y => if h : x = y then .isTrue (by rw [h]) else .isFalse (by simp [h])
  | .ok _, .error _ => .isFalse (by simp)
  | .error _, .ok _ => .isFalse (by simp)

/-- The metric aggregates consumed by the presentation layer. -/
structure Metrics where
  totalRevenue : ℚ
  totalProfit : ℚ
  totalTransactions : Nat
  avgOrderValue : ℚ
  profitMargin : ℚ
  skippedCells : Nat
deriving DecidableEq, Repr

/-- Per-cell normalized numeric value with the aggregator's failure policy:
a failed or non-numeric normalization counts as `0`. -/
def normalizedCell (raw : String) (t : ExpectedType) : ℚ :=
  match normalize raw t with
  | .ok (CanonValue.num q) => q
  | _ => 0

/-- Modelled from the spec: §4.5 Metrics Aggregator (`data-processor.ts`,
not among the available sources) — sums the normalized revenue and profit
cells with per-cell failure tolerance (failures count as `0` and are tracked
in `skippedCells`), and computes the ratios with a defined `0` on zero
denominators (`profitMargin = totalProfit/totalRevenue`, `0` when
`totalRevenue` is `0`). -/
def aggregate (revenueCells profitCells : List String) : Metrics :=
  let tr := (revenueCells.map (fun c => normalizedCell c .currency)).sum
  let tp := (profitCells.map (fun c => normalizedCell c .currency)).sum
  let n := revenueCells.length
  { totalRevenue := tr
    totalProfit := tp
    totalTransactions := n
    avgOrderValue := if n = 0 then 0 else tr / (n : ℚ)
    profitMargin := if tr = 0 then 0 else tp / tr
    skippedCells :=
      (revenueCells.filter (fun c => !(parseForType c .currency).isSome)).length
        + (profitCells.filter (fun c => !(parseForType c .currency).isSome)).length }

/-- A catalog entry (`FieldDefinition` of the data model). -/
structure FieldDefinition where
  id : String
  displayName : String
  category : String
  expectedType : ExpectedType
  aliases : List String
  keywordPatterns : List String
deriving DecidableEq, Repr

/-- A raw input column with its sampled values (`RawColumn` of the data
model). -/
structure RawColumn where
  name : String
  sampleValues : List String
deriving DecidableEq, Repr

/-- A classifier candidate (`CandidateMatch` of the data model, reasons
omitted). -/
structure CandidateMatch where
  fieldId : String
  columnName : String
  confidence : ℚ
deriving DecidableEq, Repr

/-- Column-name normalization of §4.2: lowercase and keep alphanumeric
characters only. -/
def normalizeColumnName (s : String) : String :=
  ⟨(s.data.map Char.toLower).filter (fun c => c.isAlphanum)⟩

/-- Whether a sample value matches the pattern of a semantic type (used for
§4.2 sample-value type inference). -/
def sampleMatchesType (t : ExpectedType) (v : String) : Bool :=
  match t with
  | .currency => (parseCurrency v).isSome
  | .percentage => (parsePercentage v).isSome
  | .number => (parseNumber v).isSome
  | .date => (parseDateChars v.data).isSome
  | _ => true

/-- Fraction of sample values matching the expected type; `0` (not
undefined) for an empty sample, per the §4.2 edge case. -/
def typeMatchFraction (t : ExpectedType) (samples : List String) : ℚ :=
  if samples.isEmpty then 0
  else ((samples.filter (sampleMatchesType t)).length : ℚ) / (samples.length : ℚ)

/-- Whether `needle` occurs as a contiguous run inside `hay`. -/
def containsSub (needle : List Char) : List Char → Bool
  | [] => needle.isEmpty
  | c :: t => needle.isPrefixOf (c :: t) || containsSub needle t

/-- Modelled from the spec: §4.2 confidence scoring of the Column Classifier
(`column-mapper.ts`, not among the available sources).  Exact/alias name
match carries the highest weight (0.6), keyword/substring matches a medium
additive weight capped at 0.25, and the sample-type fraction a low weight
(0.15); the sum is clipped at 1.  The spec fixes only the relative order of
the weights; the concrete values are representative. -/
def scoreColumn (col : RawColumn) (f : FieldDefinition) : ℚ :=
  let n := normalizeColumnName col.name
  let nameScore : ℚ :=
    if n = normalizeColumnName f.displayName ∨ n ∈ f.aliases.map normalizeColumnName
    then 3/5 else 0
  let kwCount :=
    (f.keywordPatterns.filter (fun k => containsSub (normalizeColumnName k).data n.data)).length
  let kwScore : ℚ := min (1/4) ((kwCount : ℚ) * (1/8))
  let typeScore : ℚ := typeMatchFraction f.expectedType col.sampleValues * (3/20)
  min 1 (nameScore + kwScore + typeScore)

/-- Modelled from the spec: §4.2 `classify(column, catalog)` — one scored
candidate per catalog field, ordered by descending confidence with ties
broken by catalog declaration order (stable insertion sort under a ≥
relation). -/
def classify (col : RawColumn) (catalog : List FieldDefinition) : List CandidateMatch :=
  (catalog.map (fun f => ⟨f.id, col.name, scoreColumn col f⟩)).insertionSort
    (fun a b => b.confidence ≤ a.confidence)

/-- A resolver proposal: column index, field id, confidence. -/
abbrev Proposal := Nat × String × ℚ

/-- The §4.3 acceptance threshold (default 0.5). -/
def acceptanceThreshold : ℚ := 1/2

/-- Index-decorates a list starting from `n`. -/
def enumFromIdx {α : Type} : Nat → List α → List (Nat × α)
  | _, [] => []
  | n, a :: l => (n, a) :: enumFromIdx (n + 1) l

/-- Confidence of a column's best candidate, `0` when there is none (used
for the §4.3 observability confidence of unmapped columns). -/
def bestConfidence (col : RawColumn) (catalog : List FieldDefinition) : ℚ :=
  match (classify col catalog).head? with
  | some c => c.confidence
  | none => 0

/-- Modelled from the spec: §4.3 step 1-2 — each column's best candidate
above the acceptance threshold becomes a proposal. -/
def proposalsOf (columns : List RawColumn) (catalog : List FieldDefinition) : List Proposal :=
  (enumFromIdx 0 columns).filterMap (fun ic =>
    match (classify ic.2 catalog).head? with
    | some c =>
        if acceptanceThreshold < c.confidence then some (ic.1, c.fieldId, c.confidence) else none
    | none => none)

/-- §4.3 proposal order: descending confidence, ties broken by original
column order. -/
def propOrder (a b : Proposal) : Prop :=
  b.2.2 < a.2.2 ∨ (a.2.2 = b.2.2 ∧ a.1 ≤ b.1)

instance : DecidableRel propOrder := fun a b => by
  unfold propOrder
  infer_instance

/-- Modelled from the spec: §4.3 step 3 — walk the sorted proposals and
accept one only when both its column and its field are still unassigned. -/
def greedyAccept : List Proposal → List Nat → List String → List Proposal
  | [], _, _ => []
  | p :: ps, cols, flds =>
      if p.1 ∈ cols ∨ p.2.1 ∈ flds then greedyAccept ps cols flds
      else p :: greedyAccept ps (p.1 :: cols) (p.2.1 :: flds)

/-- The mapping entry of one column given the accepted proposals (§4.3
step 4: columns without an accepted proposal are unmapped, with the best
rejected candidate's confidence, or `0`, for observability). -/
def buildEntry (accepted : List Proposal) (catalog : List FieldDefinition)
    (ic : Nat × RawColumn) : ColumnMapping :=
  match accepted.find? (fun p => p.1 == ic.1) with
  | some p =>
      { sourceColumn := ic.2.name, businessField := some p.2.1, mapped := true,
        confidence := p.2.2 }
  | none =>
      { sourceColumn := ic.2.name, businessField := none, mapped := false,
        confidence := bestConfidence ic.2 catalog }

/-- Modelled from the spec: §4.3 `resolve(columns, catalog)` of the Mapping
Resolver (`column-mapper.ts`, not among the available sources) — greedy
bipartite assignment of best candidates above the threshold, sorted by
descending confidence with ties in column order. -/
def resolve (columns : List RawColumn) (catalog : List FieldDefinition) : List ColumnMapping :=
  (enumFromIdx 0 columns).map
    (buildEntry (greedyAccept ((proposalsOf columns catalog).insertionSort propOrder) [] [])
      catalog)

/-- The entries of a mapping result with `mapped = true`. -/
def mappedEntries (ms : List ColumnMapping) : List ColumnMapping :=
  ms.filter (fun m => m.mapped)

/-- The source columns of the mapped entries. -/
def mappedSourceList (ms : List ColumnMapping) : List String :=
  (mappedEntries ms).map (fun m => m.sourceColumn)

/-- The business fields of the mapped entries. -/
def mappedFieldList (ms : List ColumnMapping) : List String :=
  (mappedEntries ms).filterMap (fun m => m.businessField)

/-- Modelled from the spec: §4.3 `override(columnName, fieldId|none)` acting
on one entry — the named column is (un)assigned directly, bypassing scoring,
and any prior holder of the field is unassigned.  The spec does not fix the
confidence recorded for an override; `1` is used. -/
def overrideStep (columnName : String) (fieldId : Option String) (m : ColumnMapping) :
    ColumnMapping :=
  if m.sourceColumn = columnName then
    match fieldId with
    | some f => { m with businessField := some f, mapped := true, confidence := 1 }
    | none => { m with businessField := none, mapped := false }
  else if fieldId.isSome = true ∧ m.businessField = fieldId ∧ m.mapped = true then
    { m with businessField := none, mapped := false }
  else m

/-- Modelled from the spec: §4.3 user override over a whole mapping result —
always succeeds and returns the updated mapping. -/
def override (ms : List ColumnMapping) (columnName : String) (fieldId : Option String) :
    List ColumnMapping :=
  ms.map (overrideStep columnName fieldId)

/-! ## Claim theorems -/

/-- C1 (failing evaluation): the customer-revenue aggregation of
`CustomerAnalysis` is not deterministic.  On a dataset whose revenue cells
are not mapped, the source fabricates per-row revenue via
`Math.random() * 500 + 50`, so two runs with different random streams
produce different aggregates from the identical dataset+mapping input. -/
theorem customerRevenues_nondeterministic :
    customerRevenues (fun _ => 1/10) ⟨"d.csv", 1, [[("col", JSValue.str "x")]], []⟩ ≠
      customerRevenues (fun _ => 1/2) ⟨"d.csv", 1, [[("col", JSValue.str "x")]], []⟩ := by
  with_unfolding_all decide

/-- C3: whenever the per-type parse of a raw value fails, `normalize` fails
with a `NormalizationError` carrying reason `"unparseable"`, the raw value
and the expected type — it never returns a substitute value. -/
theorem normalize_unparseable (raw : String) (t : ExpectedType)
    (h : parseForType raw t = none) :
    normalize raw t =
      Except.error { reason := "unparseable", rawValue := raw, expectedType := t } := by
  simp [normalize, h]

/-- Witness for C3 at the spec's example: `normalize("abc", number)` fails
with the `NormalizationError` rather than producing a number. -/
theorem normalize_unparseable_witness :
    parseForType "abc" ExpectedType.number = none ∧
    normalize "abc" ExpectedType.number =
      Except.error
        { reason := "unparseable", rawValue := "abc", expectedType := ExpectedType.number } :=
  ⟨by decide, normalize_unparseable "abc" ExpectedType.number (by decide)⟩

set_option maxRecDepth 4000 in
/-- C4: percentage normalization strips `%` and divides by 100, so
`normalize("12%", percentage) = 0.12`; currency normalization strips the
symbol and thousands separator, so `normalize("$1,200.50", currency)
= 1200.50`. -/
theorem normalize_percentage_currency :
    normalize "12%" ExpectedType.percentage = Except.ok (CanonValue.num (12/100)) ∧
    normalize "$1,200.50" ExpectedType.currency = Except.ok (CanonValue.num (2401/2)) := by
  constructor <;> with_unfolding_all decide

/-- C5: whenever the aggregated `totalRevenue` is `0`, the computed
`profitMargin` is exactly `0` (a defined value, not a division). -/
theorem profitMargin_zero_revenue (revenueCells profitCells : List String)
    (h : (aggregate revenueCells profitCells).totalRevenue = 0) :
    (aggregate revenueCells profitCells).profitMargin = 0 := by
  simp only [aggregate] at h ⊢
  simp [h]

/-- Witness for C5: a dataset whose only revenue cell is unparseable (hence
counted as `0`) yields `profitMargin = 0` even with nonzero profit. -/
theorem profitMargin_zero_revenue_witness :
    (aggregate ["abc"] ["$5.00"]).profitMargin = 0 :=
  profitMargin_zero_revenue ["abc"] ["$5.00"] (by with_unfolding_all decide)

/-- C6 (failing evaluation): `generateTrendData` fabricates a non-zero,
random trend series purely from `metrics.totalRevenue` — it never consults
the column mappings, so even with no date field mapped it reports 30
fabricated daily revenue points (here 103 for the first point) and differs
between two random streams. -/
theorem generateTrendData_fabricates :
    ((generateTrendData (fun _ => 1/2) 3000 600 TimePeriod.daily).map
        (fun p => p.revenue)).head? = some 103 ∧
    (generateTrendData (fun _ => 1/2) 3000 600 TimePeriod.daily).length = 30 ∧
    generateTrendData (fun _ => 0) 3000 600 TimePeriod.daily ≠
      generateTrendData (fun _ => 1/2) 3000 600 TimePeriod.daily := by
  refine ⟨by with_unfolding_all decide, by with_unfolding_all decide,
    by with_unfolding_all decide⟩

/-- C9: the navigation gating invariant — the upload section is always
accessible; the mapping section is accessible iff processed data exists;
every other section is accessible iff processed data exists and at least 5
mappings have `mapped = true`. -/
theorem navigation_gating (pd : Option ProcessedDataset) :
    isAccessible pd DashboardSection.upload = true ∧
    isAccessible pd DashboardSection.mapping = pd.isSome ∧
    ∀ s : DashboardSection, s ≠ DashboardSection.upload → s ≠ DashboardSection.mapping →
      (isAccessible pd s = true ↔
        ∃ d, pd = some d ∧ 5 ≤ (d.mappings.filter (fun m => m.mapped)).length) := by
  refine ⟨rfl, rfl, ?_⟩
  intro s hu hm
  cases s
  · exact absurd rfl hu
  · exact absurd rfl hm
  all_goals
    cases pd with
    | none => simp [isAccessible]
    | some d => simp [isAccessible]

/-- Witness for C9: with five mapped columns the summary section is
accessible. -/
theorem navigation_gating_witness :
    isAccessible
      (some
        ⟨"t.csv", 0, [],
          [⟨"a", some "Revenue", true, 1⟩, ⟨"b", some "Profit", true, 1⟩,
           ⟨"c", some "Quantity", true, 1⟩, ⟨"d", some "Order Date", true, 1⟩,
           ⟨"e", some "Customer ID", true, 1⟩]⟩)
      DashboardSection.summary = true :=
  ((navigation_gating _).2.2 DashboardSection.summary (by decide) (by decide)).mpr
    ⟨_, rfl, by decide⟩

/-- C10 counterexample: `toNumber` does not return a finite non-NaN number
for every input — the JavaScript number `NaN` has `typeof === 'number'` and
passes through unchanged. -/
theorem toNumber_nan_counterexample :
    (toNumber (JSValue.num JSNum.nan)).isFiniteNum = false := rfl

/-- C10 (amended): `toNumber` is total; number inputs (including `NaN` and
the infinities) pass through unchanged, string inputs are stripped of `$`,
`,`, whitespace and `%` then parsed with an unparseable (NaN) parse mapped
to `0` — so a string input never yields `NaN` — and every other input
(booleans, `null`, `undefined`) maps to `0`. -/
theorem toNumber_characterization :
    (∀ n : JSNum, toNumber (JSValue.num n) = n) ∧
    (∀ s : String, toNumber (JSValue.str s) ≠ JSNum.nan) ∧
    (∀ s : String,
      toNumber (JSValue.str s) =
        match parseFloatChars (cleanNumericString s) with
        | JSNum.nan => JSNum.finite 0
        | n => n) ∧
    toNumber (JSValue.boolean true) = JSNum.finite 0 ∧
    toNumber (JSValue.boolean false) = JSNum.finite 0 ∧
    toNumber JSValue.null = JSNum.finite 0 ∧
    toNumber JSValue.undefined = JSNum.finite 0 := by
  refine ⟨fun n => rfl, ?_, fun s => rfl, rfl, rfl, rfl, rfl⟩
  intro s h
  have h2 : toNumber (JSValue.str s) =
      match parseFloatChars (cleanNumericString s) with
      | JSNum.nan => JSNum.finite 0
      | n => n := rfl
  rw [h2] at h
  cases hp : parseFloatChars (cleanNumericString s) <;> rw [hp] at h <;> simp at h

/-- Witness for C10: concrete instances of the characterization — the
unparseable string `"abc"` does not produce `NaN`, and a finite number
passes through. -/
theorem toNumber_characterization_witness :
    toNumber (JSValue.str "abc") ≠ JSNum.nan ∧
    toNumber (JSValue.num (JSNum.finite 5)) = JSNum.finite 5 :=
  ⟨toNumber_characterization.2.1 "abc", toNumber_characterization.1 (JSNum.finite 5)⟩

theorem greedyAccept_invariant (ps : List Proposal) :
    ∀ (cols : List Nat) (flds : List String),
      ((greedyAccept ps cols flds).map (fun p => p.1)).Nodup ∧
      ((greedyAccept ps cols flds).map (fun p => p.2.1)).Nodup ∧
      ∀ p ∈ greedyAccept ps cols flds, p.1 ∉ cols ∧ p.2.1 ∉ flds := by
  induction ps with
  | nil => intro cols flds; simp [greedyAccept]
  | cons p ps ih =>
    intro cols flds
    by_cases h : p.1 ∈ cols ∨ p.2.1 ∈ flds
    · rw [greedyAccept, if_pos h]
      refine ⟨(ih cols flds).1, (ih cols flds).2.1, ?_⟩
      intro q hq
      exact (ih cols flds).2.2 q hq
    · rw [greedyAccept, if_neg h]
      obtain ⟨ih1, ih2, ih3⟩ := ih (p.1 :: cols) (p.2.1 :: flds)
      push_neg at h
      refine ⟨?_, ?_, ?_⟩
      · rw [List.map_cons, List.nodup_cons]
        refine ⟨?_, ih1⟩
        intro hmem
        obtain ⟨q, hq, hq1⟩ := List.mem_map.mp hmem
        exact (ih3 q hq).1 (by rw [hq1]; exact List.mem_cons_self _ _)
      · rw [List.map_cons, List.nodup_cons]
        refine ⟨?_, ih2⟩
        intro hmem
        obtain ⟨q, hq, hq1⟩ := List.mem_map.mp hmem
        exact (ih3 q hq).2 (by rw [hq1]; exact List.mem_cons_self _ _)
      · intro q hq
        rcases List.mem_cons.mp hq with hq | hq
        · subst hq; exact ⟨h.1, h.2⟩
        · have := ih3 q hq
          exact ⟨fun hc => this.1 (List.mem_cons_of_mem _ hc),
                 fun hc => this.2 (List.mem_cons_of_mem _ hc)⟩

theorem enumFromIdx_map_snd {α : Type} (n : Nat) (l : List α) :
    (enumFromIdx n l).map Prod.snd = l := by
  induction l generalizing n with
  | nil => rfl
  | cons a t ih => simp [enumFromIdx, ih]

theorem enumFromIdx_fst_ge {α : Type} (n : Nat) (l : List α) :
    ∀ p ∈ enumFromIdx n l, n ≤ p.1 := by
  induction l generalizing n with
  | nil => simp [enumFromIdx]
  | cons a t ih =>
    intro p hp
    rcases List.mem_cons.mp hp with h | h
    · subst h; exact Nat.le_refl n
    · exact Nat.le_of_succ_le (ih (n + 1) p h)

theorem enumFromIdx_fst_nodup {α : Type} (n : Nat) (l : List α) :
    ((enumFromIdx n l).map Prod.fst).Nodup := by
  induction l generalizing n with
  | nil => simp [enumFromIdx]
  | cons a t ih =>
    rw [enumFromIdx, List.map_cons, List.nodup_cons]
    refine ⟨?_, ih (n + 1)⟩
    intro hmem
    obtain ⟨p, hp, hp1⟩ := List.mem_map.mp hmem
    have := enumFromIdx_fst_ge (n + 1) t p hp
    omega

theorem mappedFieldList_cons_mapped (s g : String) (c : ℚ) (t : List ColumnMapping) :
    mappedFieldList (⟨s, some g, true, c⟩ :: t) = g :: mappedFieldList t := by
  simp [mappedFieldList, mappedEntries, List.filter_cons, List.filterMap_cons]

theorem mappedFieldList_cons_unmapped (s : String) (b : Option String) (c : ℚ)
    (t : List ColumnMapping) :
    mappedFieldList (⟨s, b, false, c⟩ :: t) = mappedFieldList t := by
  simp [mappedFieldList, mappedEntries, List.filter_cons]

theorem mappedFieldList_cons (m : ColumnMapping) (t : List ColumnMapping) :
    mappedFieldList (m :: t) =
      if m.mapped = true then
        (match m.businessField with
          | some g => g :: mappedFieldList t
          | none => mappedFieldList t)
      else mappedFieldList t := by
  by_cases hm : m.mapped = true
  · cases hb : m.businessField <;>
      simp [mappedFieldList, mappedEntries, hm, hb, List.filter_cons, List.filterMap_cons]
  · simp [mappedFieldList, mappedEntries, hm, List.filter_cons]

theorem buildEntry_of_find_some {accepted : List Proposal} {catalog : List FieldDefinition}
    {ic : Nat × RawColumn} {p : Proposal}
    (hf : accepted.find? (fun q => q.1 == ic.1) = some p) :
    buildEntry accepted catalog ic =
      { sourceColumn := ic.2.name, businessField := some p.2.1, mapped := true,
        confidence := p.2.2 } := by
  rw [buildEntry, hf]

theorem buildEntry_of_find_none {accepted : List Proposal} {catalog : List FieldDefinition}
    {ic : Nat × RawColumn}
    (hf : accepted.find? (fun q => q.1 == ic.1) = none) :
    buildEntry accepted catalog ic =
      { sourceColumn := ic.2.name, businessField := none, mapped := false,
        confidence := bestConfidence ic.2 catalog } := by
  rw [buildEntry, hf]

theorem mem_build_fields (accepted : List Proposal) (catalog : List FieldDefinition) :
    ∀ (l : List (Nat × RawColumn)) (x : String),
      x ∈ mappedFieldList (l.map (buildEntry accepted catalog)) →
      ∃ q ∈ accepted, q.1 ∈ l.map Prod.fst ∧ q.2.1 = x := by
  intro l
  induction l with
  | nil => intro x hx; simp [mappedFieldList, mappedEntries] at hx
  | cons ic t ih =>
    intro x hx
    rw [List.map_cons] at hx
    cases hf : accepted.find? (fun q => q.1 == ic.1) with
    | none =>
      rw [buildEntry_of_find_none hf, mappedFieldList_cons_unmapped] at hx
      obtain ⟨q, hq, hqt, hqx⟩ := ih x hx
      exact ⟨q, hq, by rw [List.map_cons]; exact List.mem_cons_of_mem _ hqt, hqx⟩
    | some p =>
      rw [buildEntry_of_find_some hf, mappedFieldList_cons_mapped] at hx
      rcases List.mem_cons.mp hx with hx | hx
      · have hpi : p.1 = ic.1 := by
          have h2 := List.find?_some hf
          simpa using h2
        refine ⟨p, List.mem_of_find?_eq_some hf, ?_, hx.symm⟩
        rw [List.map_cons]
        exact List.mem_cons.mpr (Or.inl hpi)
      · obtain ⟨q, hq, hqt, hqx⟩ := ih x hx
        exact ⟨q, hq, by rw [List.map_cons]; exact List.mem_cons_of_mem _ hqt, hqx⟩

theorem build_fields_nodup (accepted : List Proposal)
    (hacc : (accepted.map (fun p => p.2.1)).Nodup) (catalog : List FieldDefinition) :
    ∀ l : List (Nat × RawColumn), (l.map Prod.fst).Nodup →
      (mappedFieldList (l.map (buildEntry accepted catalog))).Nodup := by
  intro l
  induction l with
  | nil => intro _; simp [mappedFieldList, mappedEntries]
  | cons ic t ih =>
    intro hnd
    rw [List.map_cons, List.nodup_cons] at hnd
    obtain ⟨hic, hndt⟩ := hnd
    rw [List.map_cons]
    cases hf : accepted.find? (fun q => q.1 == ic.1) with
    | none =>
      rw [buildEntry_of_find_none hf, mappedFieldList_cons_unmapped]
      exact ih hndt
    | some p =>
      rw [buildEntry_of_find_some hf, mappedFieldList_cons_mapped, List.nodup_cons]
      refine ⟨?_, ih hndt⟩
      intro hmem
      obtain ⟨q, hq, hqt, hqx⟩ := mem_build_fields accepted catalog t p.2.1 hmem
      have hpmem : p ∈ accepted := List.mem_of_find?_eq_some hf
      have hpi : p.1 = ic.1 := by
        have h2 := List.find?_some hf
        simpa using h2
      have hpq : p = q := List.inj_on_of_nodup_map hacc hpmem hq hqx.symm
      rw [← hpq, hpi] at hqt
      exact hic hqt

theorem buildEntry_sourceColumn (accepted : List Proposal) (catalog : List FieldDefinition)
    (ic : Nat × RawColumn) :
    (buildEntry accepted catalog ic).sourceColumn = ic.2.name := by
  rw [buildEntry]
  cases accepted.find? (fun q => q.1 == ic.1) <;> rfl

theorem resolve_map_sourceColumn (columns : List RawColumn) (catalog : List FieldDefinition) :
    (resolve columns catalog).map (fun m => m.sourceColumn) = columns.map RawColumn.name := by
  rw [resolve, List.map_map]
  have h1 : (enumFromIdx 0 columns).map
      ((fun m => m.sourceColumn) ∘
        buildEntry (greedyAccept ((proposalsOf columns catalog).insertionSort propOrder) [] [])
          catalog) =
      (enumFromIdx 0 columns).map (fun ic => ic.2.name) :=
    List.map_congr_left (fun ic _ => buildEntry_sourceColumn _ _ ic)
  rw [h1]
  have h2 : (fun ic : Nat × RawColumn => ic.2.name) = RawColumn.name ∘ Prod.snd := rfl
  rw [h2, ← List.map_map, enumFromIdx_map_snd]

/-- C2: the resolver output is a bijection on the mapped subset — given
distinct source column names (the §6 input contract), no source column and
no business field appears twice among the entries with `mapped = true`. -/
theorem resolve_bijective (columns : List RawColumn) (catalog : List FieldDefinition)
    (hnames : (columns.map RawColumn.name).Nodup) :
    (mappedSourceList (resolve columns catalog)).Nodup ∧
    (mappedFieldList (resolve columns catalog)).Nodup := by
  constructor
  · have hall : ((resolve columns catalog).map (fun m => m.sourceColumn)).Nodup := by
      rw [resolve_map_sourceColumn]; exact hnames
    have hsub : List.Sublist (mappedSourceList (resolve columns catalog))
        ((resolve columns catalog).map (fun m => m.sourceColumn)) :=
      List.Sublist.map _ (List.filter_sublist _)
    exact hall.sublist hsub
  · rw [resolve]
    exact build_fields_nodup _ (greedyAccept_invariant _ [] []).2.1 catalog _
      (enumFromIdx_fst_nodup 0 columns)

/-- Witness for C2 at a concrete table: a revenue and a profit column against
a two-field catalog resolve to a mapping whose mapped subset has no repeated
source column or business field. -/
theorem resolve_bijective_witness :
    (mappedSourceList (resolve [⟨"revenue", ["$100.00"]⟩, ⟨"profit", ["$30.00"]⟩]
        [⟨"Revenue", "Revenue", "financial", ExpectedType.currency, ["revenue"], ["revenue"]⟩,
         ⟨"Profit", "Profit", "financial", ExpectedType.currency, ["profit"], ["profit"]⟩])).Nodup ∧
    (mappedFieldList (resolve [⟨"revenue", ["$100.00"]⟩, ⟨"profit", ["$30.00"]⟩]
        [⟨"Revenue", "Revenue", "financial", ExpectedType.currency, ["revenue"], ["revenue"]⟩,
         ⟨"Profit", "Profit", "financial", ExpectedType.currency, ["profit"], ["profit"]⟩])).Nodup :=
  resolve_bijective _ _ (by decide)

/-- C7: the resolver never fails on degenerate input — zero columns yield the
empty mapping and a zero-entry catalog yields the all-unmapped mapping (with
observability confidence `0`), both fully defined values. -/
theorem resolve_degenerate :
    (∀ catalog : List FieldDefinition, resolve [] catalog = []) ∧
    (∀ columns : List RawColumn,
      resolve columns [] =
        columns.map (fun c =>
          { sourceColumn := c.name, businessField := none, mapped := false,
            confidence := 0 })) := by
  constructor
  · intro catalog; rfl
  · intro columns
    have hprop : proposalsOf columns [] = [] := by
      rw [proposalsOf]
      rw [List.filterMap_eq_nil_iff]
      intro ic _
      rfl
    rw [resolve, hprop]
    have haccept : greedyAccept (List.insertionSort propOrder []) [] [] = [] := rfl
    rw [haccept]
    have : ∀ (n : Nat) (cs : List RawColumn),
        (enumFromIdx n cs).map (buildEntry [] []) =
          cs.map (fun c =>
            { sourceColumn := c.name, businessField := none, mapped := false,
              confidence := 0 }) := by
      intro n cs
      induction cs generalizing n with
      | nil => rfl
      | cons c t ih =>
        rw [enumFromIdx, List.map_cons, List.map_cons, ih]
        rfl
    exact this 0 columns

/-- Witness for C7: a one-field catalog with zero columns gives the empty
result, and a one-column table with a zero-entry catalog gives the
all-unmapped result. -/
theorem resolve_degenerate_witness :
    resolve [] [⟨"Revenue", "Revenue", "financial", ExpectedType.currency, [], []⟩] = [] ∧
    resolve [⟨"a", []⟩] [] =
      [{ sourceColumn := "a", businessField := none, mapped := false, confidence := 0 }] :=
  ⟨resolve_degenerate.1 _, (resolve_degenerate.2 [⟨"a", []⟩]).trans rfl⟩

theorem overrideStep_named (columnName f : String) (m : ColumnMapping)
    (h : m.sourceColumn = columnName) :
    overrideStep columnName (some f) m =
      { m with businessField := some f, mapped := true, confidence := 1 } := by
  rw [overrideStep, if_pos h]

theorem overrideStep_holder (columnName f : String) (m : ColumnMapping)
    (h1 : m.sourceColumn ≠ columnName) (h2 : m.businessField = some f) (h3 : m.mapped = true) :
    overrideStep columnName (some f) m = { m with businessField := none, mapped := false } := by
  rw [overrideStep, if_neg h1, if_pos ⟨rfl, h2, h3⟩]

theorem overrideStep_other (columnName f : String) (m : ColumnMapping)
    (h1 : m.sourceColumn ≠ columnName) (h2 : ¬(m.businessField = some f ∧ m.mapped = true)) :
    overrideStep columnName (some f) m = m := by
  rw [overrideStep, if_neg h1, if_neg (fun hc => h2 ⟨hc.2.1, hc.2.2⟩)]

theorem override_fields_mem (columnName f : String) :
    ∀ (ms : List ColumnMapping) (x : String),
      x ∈ mappedFieldList (ms.map (overrideStep columnName (some f))) →
      x = f ∨ x ∈ mappedFieldList ms := by
  intro ms
  induction ms with
  | nil => intro x hx; simp [mappedFieldList, mappedEntries] at hx
  | cons m t ih =>
    intro x hx
    rw [List.map_cons] at hx
    by_cases h1 : m.sourceColumn = columnName
    · rw [overrideStep_named _ _ _ h1] at hx
      rw [show ({ m with businessField := some f, mapped := true, confidence := 1 } :
            ColumnMapping) = ⟨m.sourceColumn, some f, true, 1⟩ from rfl,
          mappedFieldList_cons_mapped] at hx
      rcases List.mem_cons.mp hx with hx | hx
      · exact Or.inl hx
      · rcases ih x hx with h | h
        · exact Or.inl h
        · refine Or.inr ?_
          rw [mappedFieldList_cons]
          by_cases hm : m.mapped = true
          · rw [if_pos hm]
            cases m.businessField
            · exact h
            · exact List.mem_cons_of_mem _ h
          · rw [if_neg hm]; exact h
    · by_cases h2 : m.businessField = some f ∧ m.mapped = true
      · rw [overrideStep_holder _ _ _ h1 h2.1 h2.2] at hx
        rw [show ({ m with businessField := none, mapped := false } : ColumnMapping) =
              ⟨m.sourceColumn, none, false, m.confidence⟩ from rfl,
            mappedFieldList_cons_unmapped] at hx
        rcases ih x hx with h | h
        · exact Or.inl h
        · refine Or.inr ?_
          rw [mappedFieldList_cons, if_pos h2.2, h2.1]
          exact List.mem_cons_of_mem _ h
      · rw [overrideStep_other _ _ _ h1 h2] at hx
        rw [mappedFieldList_cons] at hx ⊢
        by_cases hm : m.mapped = true
        · rw [if_pos hm] at hx ⊢
          cases hb : m.businessField with
          | none =>
            rw [hb] at hx
            rcases ih x hx with h | h
            · exact Or.inl h
            · exact Or.inr h
          | some g =>
            rw [hb] at hx
            rcases List.mem_cons.mp hx with hx | hx
            · exact Or.inr (by rw [hx]; exact List.mem_cons_self _ _)
            · rcases ih x hx with h | h
              · exact Or.inl h
              · exact Or.inr (List.mem_cons_of_mem _ h)
        · rw [if_neg hm] at hx ⊢
          exact ih x hx

theorem override_fields_no_f (columnName f : String) :
    ∀ ms : List ColumnMapping,
      columnName ∉ ms.map (fun m => m.sourceColumn) →
      f ∉ mappedFieldList (ms.map (overrideStep columnName (some f))) := by
  intro ms
  induction ms with
  | nil => intro _; simp [mappedFieldList, mappedEntries]
  | cons m t ih =>
    intro h hmem
    rw [List.map_cons] at h hmem
    have h1 : m.sourceColumn ≠ columnName := fun hc => h (by rw [← hc]; exact List.mem_cons_self _ _)
    have ht : columnName ∉ t.map (fun m => m.sourceColumn) :=
      fun hc => h (List.mem_cons_of_mem _ hc)
    by_cases h2 : m.businessField = some f ∧ m.mapped = true
    · rw [overrideStep_holder _ _ _ h1 h2.1 h2.2,
          show ({ m with businessField := none, mapped := false } : ColumnMapping) =
            ⟨m.sourceColumn, none, false, m.confidence⟩ from rfl,
          mappedFieldList_cons_unmapped] at hmem
      exact ih ht hmem
    · rw [overrideStep_other _ _ _ h1 h2, mappedFieldList_cons] at hmem
      by_cases hm : m.mapped = true
      · rw [if_pos hm] at hmem
        cases hb : m.businessField with
        | none => rw [hb] at hmem; exact ih ht hmem
        | some g =>
          rw [hb] at hmem
          rcases List.mem_cons.mp hmem with hmem | hmem
          · exact h2 ⟨by rw [hb, hmem], hm⟩
          · exact ih ht hmem
      · rw [if_neg hm] at hmem
        exact ih ht hmem

theorem override_fields_nodup (columnName f : String) :
    ∀ ms : List ColumnMapping,
      (ms.map (fun m => m.sourceColumn)).Nodup →
      (mappedFieldList ms).Nodup →
      (mappedFieldList (ms.map (overrideStep columnName (some f)))).Nodup := by
  intro ms
  induction ms with
  | nil => intro _ _; simp [mappedFieldList, mappedEntries]
  | cons m t ih =>
    intro hs hf
    rw [List.map_cons, List.nodup_cons] at hs
    obtain ⟨hms, hst⟩ := hs
    have hft : (mappedFieldList t).Nodup := by
      rw [mappedFieldList_cons] at hf
      by_cases hm : m.mapped = true
      · rw [if_pos hm] at hf
        cases hb : m.businessField with
        | none => rw [hb] at hf; exact hf
        | some g => rw [hb] at hf; exact (List.nodup_cons.mp hf).2
      · rw [if_neg hm] at hf; exact hf
    rw [List.map_cons]
    by_cases h1 : m.sourceColumn = columnName
    · rw [overrideStep_named _ _ _ h1,
          show ({ m with businessField := some f, mapped := true, confidence := 1 } :
            ColumnMapping) = ⟨m.sourceColumn, some f, true, 1⟩ from rfl,
          mappedFieldList_cons_mapped, List.nodup_cons]
      refine ⟨?_, ih hst hft⟩
      apply override_fields_no_f columnName f t
      rw [← h1]
      exact hms
    · by_cases h2 : m.businessField = some f ∧ m.mapped = true
      · rw [overrideStep_holder _ _ _ h1 h2.1 h2.2,
            show ({ m with businessField := none, mapped := false } : ColumnMapping) =
              ⟨m.sourceColumn, none, false, m.confidence⟩ from rfl,
            mappedFieldList_cons_unmapped]
        exact ih hst hft
      · rw [overrideStep_other _ _ _ h1 h2, mappedFieldList_cons]
        by_cases hm : m.mapped = true
        · rw [if_pos hm]
          cases hb : m.businessField with
          | none => exact ih hst hft
          | some g =>
            rw [List.nodup_cons]
            refine ⟨?_, ih hst hft⟩
            intro hmem
            have hgf : g ≠ f := fun hc => h2 ⟨by rw [hb, hc], hm⟩
            rcases override_fields_mem columnName f t g hmem with h | h
            · exact hgf h
            · have : g ∉ mappedFieldList t := by
                rw [mappedFieldList_cons, if_pos hm, hb] at hf
                exact (List.nodup_cons.mp hf).1
              exact this h
        · rw [if_neg hm]
          exact ih hst hft

/-- C8: overriding a mapping to a field already held by another column always
succeeds — the named column becomes mapped to the field with the prior holder
unmapped, both entries updated consistently, and the mapped-subset bijection
is preserved. -/
theorem override_reassigns (ms : List ColumnMapping) (columnName f : String)
    (hs : (ms.map (fun m => m.sourceColumn)).Nodup)
    (hf : (mappedFieldList ms).Nodup) :
    override ms columnName (some f) = ms.map (overrideStep columnName (some f)) ∧
    (∀ m : ColumnMapping, m.sourceColumn = columnName →
      overrideStep columnName (some f) m =
        { m with businessField := some f, mapped := true, confidence := 1 }) ∧
    (∀ m : ColumnMapping, m.sourceColumn ≠ columnName → m.mapped = true →
      m.businessField = some f →
      overrideStep columnName (some f) m = { m with businessField := none, mapped := false }) ∧
    (mappedFieldList (override ms columnName (some f))).Nodup := by
  refine ⟨rfl, ?_, ?_, ?_⟩
  · intro m h
    exact overrideStep_named columnName f m h
  · intro m h1 h2 h3
    exact overrideStep_holder columnName f m h1 h3 h2
  · rw [override]
    exact override_fields_nodup columnName f ms hs hf

/-- Witness for C8: overriding column `b` to the field `Revenue`, currently
held by column `a`, unmaps `a`, maps `b`, and keeps the mapped fields
duplicate-free. -/
theorem override_reassigns_witness :
    (mappedFieldList (override
        [⟨"a", some "Revenue", true, 9/10⟩, ⟨"b", some "Profit", true, 4/5⟩]
        "b" (some "Revenue"))).Nodup :=
  (override_reassigns
      [⟨"a", some "Revenue", true, 9/10⟩, ⟨"b", some "Profit", true, 4/5⟩]
      "b" "Revenue" (by decide) (by decide)).2.2.2

end AutoDashboard
